import Mathlib

/-!
Verification model of the storage client in `src/electron/gcs/gcs-client.ts`
(class `GcsClient`).  Each definition is a shallow embedding of the
corresponding TypeScript function; network effects are modelled by passing
in the sequence of (already parsed) responses, and the external crypto
primitive (`createHmac('sha1', ...)` + base64) is an abstract function
parameter.  JavaScript-specific semantics (truthiness, `Number(x) || 0`,
`encodeURIComponent`, `Array.prototype.sort` with a comparator) are
modelled explicitly below.
-/

/-- A JavaScript value as produced by `fast-xml-parser` for a leaf node:
either a number (numeric text is converted by the parser; we restrict to
integers, which covers every value the claims touch), a boolean, or a
string left unconverted. -/
inductive JsVal where
  | num (n : Int)
  | bool (b : Bool)
  | str (s : String)
deriving DecidableEq, Repr

/-- Model of JavaScript integer parsing for `Number(s)` on the strings the
parser leaves unconverted: the empty string is 0, an optional sign followed
by one or more decimal digits is that integer, anything else is NaN
(`none`). -/
def decDigitsGo : List Char → Nat → Option Nat
  | [], acc => some acc
  | c :: cs, acc =>
    if c.isDigit then decDigitsGo cs (acc * 10 + (c.toNat - 48)) else none

/-- One-or-more decimal digits, otherwise `none`. -/
def decDigits (l : List Char) : Option Nat :=
  match l with
  | [] => none
  | _ => decDigitsGo l 0

/-- `Number(s)` for a string `s`, restricted to integer syntax. -/
def jsStringToInt (s : String) : Option Int :=
  match s.data with
  | [] => some 0
  | c :: rest =>
    if c = '-' then (decDigits rest).map (fun n => -(n : Int))
    else if c = '+' then (decDigits rest).map (fun n => (n : Int))
    else (decDigits (c :: rest)).map (fun n => (n : Int))

/-- `Number(v)` for a JavaScript value (`none` is NaN). -/
def jsToNumber : JsVal → Option Int
  | .num n => some n
  | .bool b => some (if b then 1 else 0)
  | .str s => jsStringToInt s

/-- The expression `Number(v) || 0` applied to an optional field value
(`none` models an absent field, whose `Number` is NaN). -/
def jsNumberOr0 : Option JsVal → Int
  | none => 0
  | some v =>
    match jsToNumber v with
    | none => 0
    | some n => n

/-- One `<Contents>` item of a parsed `ListBucketResult` document. -/
structure ContentItem where
  key : String
  size : Option JsVal
  lastModified : String
deriving DecidableEq, Repr

/-- The parsed `ListBucketResult` root element.  `isTruncated` is kept as a
raw optional JavaScript value because the code compares it against both the
boolean `true` and the string `'true'`. -/
structure ListBucketResult where
  contents : List ContentItem
  isTruncated : Option JsVal
  nextContinuationToken : Option String
deriving DecidableEq, Repr

/-- One parsed XML response page; `root = none` models a document with no
`ListBucketResult` element. -/
structure Page where
  root : Option ListBucketResult
deriving DecidableEq, Repr

/-- The record type `GoogleCloudObject` from `gcs-types.ts`. -/
structure GoogleCloudObject where
  key : String
  size : Int
  lastModified : String
deriving DecidableEq, Repr

/-- The per-item record construction in `listItems`:
`{ key: item.Key, size: Number(item.Size) || 0, lastModified: item.LastModified }`. -/
def toObject (item : ContentItem) : GoogleCloudObject :=
  ⟨item.key, jsNumberOr0 item.size, item.lastModified⟩

/-- The check `root.IsTruncated === true || root.IsTruncated === 'true'`. -/
def isTruncatedTruthy : Option JsVal → Bool
  | some (.bool true) => true
  | some (.str s) => s == "true"
  | _ => false

/-- The error message thrown by `listItems` when a truncated page has a
falsy continuation token. -/
def truncErrMsg : String :=
  "Response is truncated but no NextContinuationToken was provided."

/-- The pagination loop of `listItems`, driven by the simulated sequence of
parsed pages.  The accumulator holds the objects collected so far and the
number of requests already issued; each loop iteration consumes exactly one
page (one request).  An exhausted simulation while the loop still wants a
page is modelled as a network failure. -/
def listItemsGo (acc : List GoogleCloudObject) (n : Nat) :
    List Page → Except String (List GoogleCloudObject × Nat)
  | [] => .error "network failure: no response"
  | p :: rest =>
    match p.root with
    | none => .ok (acc, n + 1)
    | some root =>
      let acc2 := acc ++ root.contents.map toObject
      if isTruncatedTruthy root.isTruncated then
        match root.nextContinuationToken with
        | none => .error truncErrMsg
        | some t =>
          if t = "" then .error truncErrMsg
          else listItemsGo acc2 (n + 1) rest
      else .ok (acc2, n + 1)

/-- `listItems` over a simulated sequence of parsed pages: the returned
value is the aggregated object list together with the number of requests
issued. -/
def listItems (pages : List Page) : Except String (List GoogleCloudObject × Nat) :=
  listItemsGo [] 0 pages

/-- The raw `Contents` items of a page (empty when the root is absent). -/
def pageContents (p : Page) : List ContentItem :=
  match p.root with
  | none => []
  | some root => root.contents

/-- The object records a page contributes to the result. -/
def pageObjects (p : Page) : List GoogleCloudObject :=
  (pageContents p).map toObject

/-- A page that drives the loop onwards: it has a root, its `IsTruncated`
is truthy in the sense the code tests, and it carries a truthy (non-empty)
continuation token. -/
def TruncPage (p : Page) : Prop :=
  ∃ root, p.root = some root ∧ isTruncatedTruthy root.isTruncated = true ∧
    ∃ t, root.nextContinuationToken = some t ∧ t ≠ ""

/-- A page that terminates the loop normally: it has a root and is not
truncated. -/
def FinalPage (p : Page) : Prop :=
  ∃ root, p.root = some root ∧ isTruncatedTruthy root.isTruncated = false

/-- A protocol-violating page: truncated but carrying no continuation
token. -/
def BadTruncPage (p : Page) : Prop :=
  ∃ root, p.root = some root ∧ isTruncatedTruthy root.isTruncated = true ∧
    root.nextContinuationToken = none

theorem listItemsGo_trunc (ts rest : List Page) (acc : List GoogleCloudObject) (n : Nat)
    (h : ∀ p ∈ ts, TruncPage p) :
    listItemsGo acc n (ts ++ rest) =
      listItemsGo (acc ++ ts.flatMap pageObjects) (n + ts.length) rest := by
  induction ts generalizing acc n with
  | nil => simp
  | cons p ts ih =>
    obtain ⟨root, hr, htr, t, ht, hne⟩ := h p (by simp)
    have hrest : ∀ q ∈ ts, TruncPage q := fun q hq => h q (by simp [hq])
    have harith : n + 1 + ts.length = n + (ts.length + 1) := by omega
    have h1 : listItemsGo acc n ((p :: ts) ++ rest)
        = listItemsGo (acc ++ root.contents.map toObject) (n + 1) (ts ++ rest) := by
      simp [listItemsGo, hr, htr, ht, hne]
    rw [h1, ih _ _ hrest]
    simp [pageObjects, pageContents, hr, List.append_assoc, harith]

/-- C1: over every simulated sequence of list pages, `listItems` keeps
issuing one request per page as long as the parsed page is truncated with a
usable continuation token, returns on the first non-truncated page the
concatenation of the items of all consumed pages in page order (so the
item count is the sum of the per-page counts), and throws the dedicated
error when a page is truncated but carries no `NextContinuationToken`. -/
theorem listItems_pagination_spec :
    (∀ ts final rest, (∀ p ∈ ts, TruncPage p) → FinalPage final →
      ∃ items, listItems (ts ++ final :: rest) = .ok (items, ts.length + 1) ∧
        items = (ts ++ [final]).flatMap pageObjects ∧
        items.length = ((ts ++ [final]).map fun p => (pageObjects p).length).sum) ∧
    (∀ ts bad rest, (∀ p ∈ ts, TruncPage p) → BadTruncPage bad →
      listItems (ts ++ bad :: rest) = .error truncErrMsg) := by
  constructor
  · intro ts final rest hts hfin
    obtain ⟨root, hr, htr⟩ := hfin
    refine ⟨(ts ++ [final]).flatMap pageObjects, ?_, rfl, ?_⟩
    · unfold listItems
      rw [listItemsGo_trunc ts _ [] 0 hts]
      simp [listItemsGo, hr, htr, pageObjects, pageContents]
    · rw [List.length_flatMap]
      simp [Function.comp_def]
  · intro ts bad rest hts hbad
    obtain ⟨root, hr, htr, hnone⟩ := hbad
    unfold listItems
    rw [listItemsGo_trunc ts _ [] 0 hts]
    simp [listItemsGo, hr, htr, hnone]

theorem listItems_pagination_spec_witness :
    listItems [(⟨some ⟨[⟨"k1", some (JsVal.num 1), "d1"⟩], some (JsVal.str "true"), some "tok"⟩⟩ : Page),
        (⟨some ⟨[⟨"k2", none, "d2"⟩, ⟨"k3", some (JsVal.str "x"), "d3"⟩], some (JsVal.bool false), none⟩⟩ : Page)]
      = .ok ([⟨"k1", 1, "d1"⟩, ⟨"k2", 0, "d2"⟩, ⟨"k3", 0, "d3"⟩], 2) ∧
    listItems [(⟨some ⟨[], some (JsVal.bool true), none⟩⟩ : Page)] = .error truncErrMsg := by
  constructor
  · obtain ⟨items, he, hitems, _⟩ :=
      listItems_pagination_spec.1
        [(⟨some ⟨[⟨"k1", some (JsVal.num 1), "d1"⟩], some (JsVal.str "true"), some "tok"⟩⟩ : Page)]
        (⟨some ⟨[⟨"k2", none, "d2"⟩, ⟨"k3", some (JsVal.str "x"), "d3"⟩], some (JsVal.bool false), none⟩⟩ : Page)
        []
        (by intro p hp
            simp only [List.mem_singleton] at hp
            subst hp
            exact ⟨_, rfl, rfl, "tok", rfl, by decide⟩)
        ⟨_, rfl, rfl⟩
    rw [hitems] at he
    exact he
  · exact listItems_pagination_spec.2 []
      (⟨some ⟨[], some (JsVal.bool true), none⟩⟩ : Page) []
      (by intro p hp; simp at hp)
      ⟨_, rfl, rfl, rfl⟩

/-- C10: when a page parses to a document with no `ListBucketResult` root,
`listItems` breaks out of the loop and returns the items accumulated so
far as a successful result, even when every earlier page was truncated;
the projection to the returned item list is indistinguishable from a
complete (never-truncated) listing of the same items. -/
theorem listItems_missing_root_spec :
    ∀ ts noRoot rest, (∀ p ∈ ts, TruncPage p) → noRoot.root = none →
      listItems (ts ++ noRoot :: rest) = .ok (ts.flatMap pageObjects, ts.length + 1) ∧
      ∃ complete, (∀ p ∈ complete, FinalPage p) ∧
        (listItems complete).map Prod.fst = (listItems (ts ++ noRoot :: rest)).map Prod.fst := by
  intro ts noRoot rest hts hnr
  have hmain : listItems (ts ++ noRoot :: rest) = .ok (ts.flatMap pageObjects, ts.length + 1) := by
    unfold listItems
    rw [listItemsGo_trunc ts _ [] 0 hts]
    simp [listItemsGo, hnr]
  refine ⟨hmain, [⟨some ⟨ts.flatMap pageContents, none, none⟩⟩], ?_, ?_⟩
  · intro p hp
    simp only [List.mem_singleton] at hp
    subst hp
    exact ⟨_, rfl, rfl⟩
  · rw [hmain]
    have hmf : (ts.flatMap pageContents).map toObject = ts.flatMap pageObjects := by
      rw [List.map_flatMap]
      rfl
    simp [listItems, listItemsGo, isTruncatedTruthy, Except.map, hmf]

theorem listItems_missing_root_spec_witness :
    listItems [(⟨some ⟨[⟨"m1", some (JsVal.num 4), "t1"⟩], some (JsVal.bool true), some "cursor"⟩⟩ : Page),
        (⟨none⟩ : Page)]
      = .ok ([⟨"m1", 4, "t1"⟩], 2) := by
  have h := (listItems_missing_root_spec
      [(⟨some ⟨[⟨"m1", some (JsVal.num 4), "t1"⟩], some (JsVal.bool true), some "cursor"⟩⟩ : Page)]
      (⟨none⟩ : Page) []
      (by intro p hp
          simp only [List.mem_singleton] at hp
          subst hp
          exact ⟨_, rfl, rfl, "cursor", rfl, by decide⟩)
      rfl).1
  exact h

/-- C9 (counterexample): an item whose parsed `Size` is the number `-5` is
turned into an object record with the negative size `-5`, so the produced
size is not always a non-negative integer. -/
theorem listItems_size_nonneg_cex :
    listItems [(⟨some ⟨[⟨"a", some (JsVal.num (-5)), "LM"⟩], none, none⟩⟩ : Page)]
      = .ok ([⟨"a", -5, "LM"⟩], 1) ∧
    ¬(0 ≤ (GoogleCloudObject.mk "a" (-5) "LM").size) := by
  exact ⟨rfl, by decide⟩

/-- C9 (amended): the size of a produced object record equals the parsed
numeric `Size` value whenever the parser produced a number (negative
values included), defaults to 0 when `Size` is missing or unparsable, and
is non-negative whenever the numeric `Size` value is non-negative (as for
every provider-native digit-string count); `listItems` produces its
records through exactly this conversion. -/
theorem toObject_size_amended :
    (∀ item : ContentItem, ∀ n, item.size = some (JsVal.num n) → (toObject item).size = n) ∧
    (∀ item : ContentItem, item.size = none → (toObject item).size = 0) ∧
    (∀ item : ContentItem, ∀ s, item.size = some (JsVal.str s) → jsStringToInt s = none →
      (toObject item).size = 0) ∧
    (∀ item : ContentItem, ∀ n, item.size = some (JsVal.num n) → 0 ≤ n →
      0 ≤ (toObject item).size) ∧
    (∀ items : List ContentItem,
      listItems [⟨some ⟨items, none, none⟩⟩] = .ok (items.map toObject, 1)) := by
  refine ⟨?_, ?_, ?_, ?_, ?_⟩
  · intro item n h; simp [toObject, jsNumberOr0, jsToNumber, h]
  · intro item h; simp [toObject, jsNumberOr0, h]
  · intro item s h hs; simp [toObject, jsNumberOr0, jsToNumber, h, hs]
  · intro item n h hn; simp [toObject, jsNumberOr0, jsToNumber, h, hn]
  · intro items; simp [listItems, listItemsGo, isTruncatedTruthy]

theorem toObject_size_amended_witness :
    (toObject ⟨"a", some (JsVal.num 7), "d"⟩).size = 7 ∧
    (toObject ⟨"b", some (JsVal.str "junk"), "d"⟩).size = 0 ∧
    0 ≤ (toObject ⟨"a", some (JsVal.num 7), "d"⟩).size ∧
    listItems [⟨some ⟨[⟨"a", some (JsVal.num 7), "d"⟩], none, none⟩⟩] = .ok ([⟨"a", 7, "d"⟩], 1) := by
  refine ⟨toObject_size_amended.1 _ 7 rfl, ?_, ?_, ?_⟩
  · exact toObject_size_amended.2.2.1 _ "junk" rfl (by decide)
  · exact toObject_size_amended.2.2.2.1 _ 7 rfl (by decide)
  · exact toObject_size_amended.2.2.2.2 [⟨"a", some (JsVal.num 7), "d"⟩]

/-- The path separator character. -/
def slash : Char := '/'

/-- JavaScript `s.split(c)` over the character list of a string: always
returns at least one (possibly empty) segment, and one extra segment per
separator occurrence. -/
def splitOnChar (c : Char) : List Char → List (List Char)
  | [] => [[]]
  | x :: xs =>
    match splitOnChar c xs with
    | [] => [[]]
    | s :: ss => if x = c then [] :: s :: ss else (x :: s) :: ss

/-- JavaScript `parts.join(c)` (for a one-character separator). -/
def joinWith (c : Char) : List (List Char) → List Char
  | [] => []
  | [s] => s
  | s :: ss => s ++ c :: joinWith c ss

/-- The characters `encodeURIComponent` leaves unescaped: ASCII letters,
digits, and `- _ . ! ~ * ' ( )` (given here by code point). -/
def isUnreservedCode (n : Nat) : Bool :=
  (65 ≤ n && n ≤ 90) || (97 ≤ n && n ≤ 122) || (48 ≤ n && n ≤ 57) ||
  n = 45 || n = 95 || n = 46 || n = 33 || n = 126 || n = 42 || n = 39 ||
  n = 40 || n = 41

/-- Uppercase hexadecimal digit for a value below 16. -/
def hexDigitChar (n : Nat) : Char :=
  Char.ofNat (if n < 10 then 48 + n else 55 + n)

/-- Percent-escape of one byte, e.g. 32 becomes `%20`. -/
def pctByte (b : Nat) : List Char :=
  [Char.ofNat 37, hexDigitChar (b / 16), hexDigitChar (b % 16)]

/-- UTF-8 byte sequence of a Unicode code point. -/
def utf8Bytes (n : Nat) : List Nat :=
  if n < 128 then [n]
  else if n < 2048 then [192 + n / 64, 128 + n % 64]
  else if n < 65536 then [224 + n / 4096, 128 + (n / 64) % 64, 128 + n % 64]
  else [240 + n / 262144, 128 + (n / 4096) % 64, 128 + (n / 64) % 64, 128 + n % 64]

/-- `encodeURIComponent` on a single character: kept verbatim when
unreserved, otherwise percent-escaped byte-by-byte in UTF-8. -/
def encodeURIComponentChar (ch : Char) : List Char :=
  if isUnreservedCode ch.toNat then [ch]
  else (utf8Bytes ch.toNat).flatMap pctByte

/-- `encodeURIComponent` on one path segment. -/
def encodeSegment (seg : List Char) : List Char :=
  seg.flatMap encodeURIComponentChar

/-- `encodeKey` from `gcs-client.ts`:
`key.split('/').map(s => encodeURIComponent(s)).join('/')`. -/
def encodeKey (key : String) : String :=
  String.mk (joinWith slash ((splitOnChar slash key.data).map encodeSegment))

/-- The client configuration (the fields the request builders use). -/
structure GcsConfig where
  serviceUrl : String
  bucketName : String
  accessId : String
  secret : String
deriving DecidableEq, Repr

/-- The method/URL/canonical-resource triple an object-level operation
hands to `sendRequest`. -/
structure RequestParts where
  method : String
  url : String
  canonicalResource : String
deriving DecidableEq, Repr

/-- `uploadItem`: PUT to the encoded key. -/
def uploadItemRequest (cfg : GcsConfig) (objectName : String) : RequestParts :=
  let encoded := encodeKey objectName
  ⟨"PUT", cfg.serviceUrl ++ cfg.bucketName ++ "/" ++ encoded,
    "/" ++ cfg.bucketName ++ "/" ++ encoded⟩

/-- `downloadItem`: GET of the encoded key. -/
def downloadItemRequest (cfg : GcsConfig) (objectName : String) : RequestParts :=
  let encoded := encodeKey objectName
  ⟨"GET", cfg.serviceUrl ++ cfg.bucketName ++ "/" ++ encoded,
    "/" ++ cfg.bucketName ++ "/" ++ encoded⟩

/-- `deleteItem`: DELETE of the encoded key. -/
def deleteItemRequest (cfg : GcsConfig) (objectName : String) : RequestParts :=
  let encoded := encodeKey objectName
  ⟨"DELETE", cfg.serviceUrl ++ cfg.bucketName ++ "/" ++ encoded,
    "/" ++ cfg.bucketName ++ "/" ++ encoded⟩

/-- `fileExists`: HEAD of the encoded key. -/
def headItemRequest (cfg : GcsConfig) (objectName : String) : RequestParts :=
  let encoded := encodeKey objectName
  ⟨"HEAD", cfg.serviceUrl ++ cfg.bucketName ++ "/" ++ encoded,
    "/" ++ cfg.bucketName ++ "/" ++ encoded⟩

/-- `copyItem`: PUT to the encoded destination key, with the encoded source
in the copy-source extension header value. -/
def copyItemRequest (cfg : GcsConfig) (sourceKey destKey : String) :
    RequestParts × String :=
  let encodedDest := encodeKey destKey
  let encodedSource := encodeKey sourceKey
  (⟨"PUT", cfg.serviceUrl ++ cfg.bucketName ++ "/" ++ encodedDest,
      "/" ++ cfg.bucketName ++ "/" ++ encodedDest⟩,
    "/" ++ cfg.bucketName ++ "/" ++ encodedSource)

theorem splitOnChar_ne_nil (c : Char) (l : List Char) : splitOnChar c l ≠ [] := by
  induction l with
  | nil => simp [splitOnChar]
  | cons x xs ih =>
    cases h : splitOnChar c xs with
    | nil => exact absurd h ih
    | cons s ss =>
      simp only [splitOnChar, h]
      split <;> simp

theorem joinWith_cons (c : Char) (s : List Char) (ss : List (List Char)) (h : ss ≠ []) :
    joinWith c (s :: ss) = s ++ c :: joinWith c ss := by
  cases ss with
  | nil => exact absurd rfl h
  | cons s2 ss2 => rfl

theorem joinWith_splitOnChar (c : Char) (l : List Char) :
    joinWith c (splitOnChar c l) = l := by
  induction l with
  | nil => rfl
  | cons x xs ih =>
    cases h : splitOnChar c xs with
    | nil => exact absurd h (splitOnChar_ne_nil c xs)
    | cons s ss =>
      rw [h] at ih
      simp only [splitOnChar, h]
      by_cases hx : x = c
      · subst hx
        rw [if_pos rfl, joinWith_cons _ _ _ (by simp)]
        simpa using ih
      · rw [if_neg hx]
        cases ss with
        | nil => simpa [joinWith] using congrArg (x :: ·) ih
        | cons s2 ss2 =>
          rw [joinWith_cons _ _ _ (by simp)]
          rw [joinWith_cons _ _ _ (by simp)] at ih
          simpa using congrArg (x :: ·) ih

theorem splitOnChar_not_mem (c : Char) (l : List Char) :
    ∀ p ∈ splitOnChar c l, c ∉ p := by
  induction l with
  | nil =>
    intro p hp
    simp [splitOnChar] at hp
    subst hp
    simp
  | cons x xs ih =>
    intro p hp
    cases h : splitOnChar c xs with
    | nil => exact absurd h (splitOnChar_ne_nil c xs)
    | cons s ss =>
      simp only [splitOnChar, h] at hp
      have ihs : c ∉ s := ih s (by rw [h]; simp)
      have ihss : ∀ q ∈ ss, c ∉ q := fun q hq => ih q (by rw [h]; simp [hq])
      by_cases hx : x = c
      · rw [if_pos hx] at hp
        simp only [List.mem_cons] at hp
        rcases hp with hp | hp | hp
        · subst hp; simp
        · subst hp; exact ihs
        · exact ihss p hp
      · rw [if_neg hx] at hp
        simp only [List.mem_cons] at hp
        rcases hp with hp | hp
        · subst hp
          simp only [List.mem_cons, not_or]
          exact ⟨fun he => hx he.symm, ihs⟩
        · exact ihss p hp

theorem splitOnChar_of_not_mem (c : Char) (l : List Char) (h : c ∉ l) :
    splitOnChar c l = [l] := by
  induction l with
  | nil => rfl
  | cons x xs ih =>
    have hx : x ≠ c := fun he => h (by simp [he])
    have hxs : c ∉ xs := fun hm => h (by simp [hm])
    simp only [splitOnChar, ih hxs]
    rw [if_neg hx]

theorem splitOnChar_append_sep (c : Char) (s t : List Char) (hs : c ∉ s) :
    splitOnChar c (s ++ c :: t) = s :: splitOnChar c t := by
  induction s with
  | nil =>
    cases h : splitOnChar c t with
    | nil => exact absurd h (splitOnChar_ne_nil c t)
    | cons s2 ss2 =>
      simp only [List.nil_append, splitOnChar, h]
      simp
  | cons y s ih =>
    have hy : y ≠ c := fun he => hs (by simp [he])
    have hs2 : c ∉ s := fun hm => hs (by simp [hm])
    have hrec := ih hs2
    rw [List.cons_append]
    simp only [splitOnChar, hrec]
    rw [if_neg hy]

theorem splitOnChar_joinWith (c : Char) (segs : List (List Char)) (hne : segs ≠ [])
    (hall : ∀ s ∈ segs, c ∉ s) :
    splitOnChar c (joinWith c segs) = segs := by
  induction segs with
  | nil => exact absurd rfl hne
  | cons s ss ih =>
    cases ss with
    | nil => exact splitOnChar_of_not_mem c s (hall s (by simp))
    | cons s2 ss2 =>
      rw [joinWith_cons c s (s2 :: ss2) (by simp)]
      rw [splitOnChar_append_sep c s _ (hall s (by simp))]
      rw [ih (by simp) (fun q hq => hall q (by simp [hq]))]

theorem count_joinWith (c : Char) (parts : List (List Char)) (hne : parts ≠ [])
    (hall : ∀ p ∈ parts, c ∉ p) :
    (joinWith c parts).count c = parts.length - 1 := by
  induction parts with
  | nil => exact absurd rfl hne
  | cons p ps ih =>
    cases ps with
    | nil => simp [joinWith, List.count_eq_zero.mpr (hall p (by simp))]
    | cons p2 ps2 =>
      rw [joinWith_cons c p (p2 :: ps2) (by simp)]
      rw [List.count_append, List.count_cons_self]
      rw [ih (by simp) (fun q hq => hall q (by simp [hq]))]
      rw [List.count_eq_zero.mpr (hall p (by simp))]
      simp

theorem splitOnChar_length (c : Char) (l : List Char) :
    (splitOnChar c l).length = l.count c + 1 := by
  induction l with
  | nil => simp [splitOnChar]
  | cons x xs ih =>
    cases h : splitOnChar c xs with
    | nil => exact absurd h (splitOnChar_ne_nil c xs)
    | cons s ss =>
      rw [h] at ih
      simp only [splitOnChar, h]
      by_cases hx : x = c
      · subst hx
        rw [if_pos rfl]
        simp only [List.length_cons, List.count_cons_self] at *
        omega
      · rw [if_neg hx]
        have hcne : (c == x) = false := by
          simp
          exact fun he => hx he.symm
        have hcount : (x :: xs).count c = xs.count c := by
          simp [List.count_cons, hcne, hx]
        rw [hcount]
        simp only [List.length_cons] at *
        omega

theorem char_toNat_lt (c : Char) : c.toNat < 1114112 := by
  have h : c.val.toNat < 55296 ∨ (57343 < c.val.toNat ∧ c.val.toNat < 1114112) := c.valid
  show c.val.toNat < 1114112
  omega

theorem utf8Bytes_lt (n : Nat) (hn : n < 1114112) : ∀ b ∈ utf8Bytes n, b < 256 := by
  intro b hb
  unfold utf8Bytes at hb
  split at hb
  · simp at hb; omega
  · split at hb
    · simp at hb; rcases hb with hb | hb <;> omega
    · split at hb
      · simp at hb; rcases hb with hb | hb | hb <;> omega
      · simp at hb; rcases hb with hb | hb | hb | hb <;> omega

theorem hexDigitChar_ne_slash : ∀ m, m < 16 → hexDigitChar m ≠ slash := by decide

theorem slash_not_mem_encodeChar (ch : Char) (h : ch ≠ slash) :
    slash ∉ encodeURIComponentChar ch := by
  unfold encodeURIComponentChar
  split
  · intro hm
    simp at hm
    exact h hm.symm
  · intro hm
    simp only [List.mem_flatMap, pctByte] at hm
    obtain ⟨b, hb, hc⟩ := hm
    have hblt : b < 256 := utf8Bytes_lt ch.toNat (char_toNat_lt ch) b hb
    simp only [List.mem_cons, List.not_mem_nil, or_false] at hc
    rcases hc with hc | hc | hc
    · exact absurd hc.symm (by decide)
    · exact hexDigitChar_ne_slash (b / 16) (by omega) hc.symm
    · exact hexDigitChar_ne_slash (b % 16) (by omega) hc.symm

theorem slash_not_mem_encodeSegment (seg : List Char) (h : slash ∉ seg) :
    slash ∉ encodeSegment seg := by
  intro hm
  simp only [encodeSegment, List.mem_flatMap] at hm
  obtain ⟨ch, hch, hmem⟩ := hm
  exact slash_not_mem_encodeChar ch (fun he => h (he ▸ hch)) hmem

/-- C2: `encodeKey` encodes a key segment-by-segment — it splits on the
separator, applies `encodeURIComponent` to each segment, and rejoins — so
the separator is preserved literally (the separator count is unchanged and
no encoded segment introduces one), `folder/my file.txt` encodes to
`folder/my%20file.txt`, and every object-level operation builds its
request URL and its canonical signing resource from the same (hence
byte-identical) encoded key. -/
theorem encodeKey_spec :
    (encodeKey "folder/my file.txt" = "folder/my%20file.txt") ∧
    (∀ key : String, (encodeKey key).data.count slash = key.data.count slash) ∧
    (∀ segs : List (List Char), segs ≠ [] → (∀ s ∈ segs, slash ∉ s) →
      encodeKey (String.mk (joinWith slash segs))
        = String.mk (joinWith slash (segs.map encodeSegment))) ∧
    (∀ cfg objectName sourceKey destKey,
      ((uploadItemRequest cfg objectName).url
          = cfg.serviceUrl ++ cfg.bucketName ++ "/" ++ encodeKey objectName ∧
        (uploadItemRequest cfg objectName).canonicalResource
          = "/" ++ cfg.bucketName ++ "/" ++ encodeKey objectName) ∧
      ((downloadItemRequest cfg objectName).url
          = cfg.serviceUrl ++ cfg.bucketName ++ "/" ++ encodeKey objectName ∧
        (downloadItemRequest cfg objectName).canonicalResource
          = "/" ++ cfg.bucketName ++ "/" ++ encodeKey objectName) ∧
      ((deleteItemRequest cfg objectName).url
          = cfg.serviceUrl ++ cfg.bucketName ++ "/" ++ encodeKey objectName ∧
        (deleteItemRequest cfg objectName).canonicalResource
          = "/" ++ cfg.bucketName ++ "/" ++ encodeKey objectName) ∧
      ((headItemRequest cfg objectName).url
          = cfg.serviceUrl ++ cfg.bucketName ++ "/" ++ encodeKey objectName ∧
        (headItemRequest cfg objectName).canonicalResource
          = "/" ++ cfg.bucketName ++ "/" ++ encodeKey objectName) ∧
      ((copyItemRequest cfg sourceKey destKey).1.url
          = cfg.serviceUrl ++ cfg.bucketName ++ "/" ++ encodeKey destKey ∧
        (copyItemRequest cfg sourceKey destKey).1.canonicalResource
          = "/" ++ cfg.bucketName ++ "/" ++ encodeKey destKey ∧
        (copyItemRequest cfg sourceKey destKey).2
          = "/" ++ cfg.bucketName ++ "/" ++ encodeKey sourceKey)) := by
  refine ⟨?_, ?_, ?_, ?_⟩
  · decide
  · intro key
    show (joinWith slash ((splitOnChar slash key.data).map encodeSegment)).count slash
        = key.data.count slash
    have hparts : ∀ p ∈ (splitOnChar slash key.data).map encodeSegment, slash ∉ p := by
      intro p hp
      simp only [List.mem_map] at hp
      obtain ⟨q, hq, rfl⟩ := hp
      exact slash_not_mem_encodeSegment q (splitOnChar_not_mem slash key.data q hq)
    have hne : (splitOnChar slash key.data).map encodeSegment ≠ [] := by
      simp [splitOnChar_ne_nil]
    rw [count_joinWith slash _ hne hparts, List.length_map, splitOnChar_length]
    omega
  · intro segs hne hall
    show String.mk (joinWith slash
        ((splitOnChar slash (joinWith slash segs)).map encodeSegment)) = _
    rw [splitOnChar_joinWith slash segs hne hall]
  · intro cfg objectName sourceKey destKey
    exact ⟨⟨rfl, rfl⟩, ⟨rfl, rfl⟩, ⟨rfl, rfl⟩, ⟨rfl, rfl⟩, rfl, rfl, rfl⟩

theorem encodeKey_spec_witness :
    encodeKey "folder/my file.txt" = "folder/my%20file.txt" ∧
    (encodeKey "a/b c").data.count slash = ("a/b c" : String).data.count slash ∧
    encodeKey (String.mk (joinWith slash [['a'], ['b', ' ']]))
      = String.mk (joinWith slash ([['a'], ['b', ' ']].map encodeSegment)) ∧
    (uploadItemRequest ⟨"https://s.example/", "bkt", "id", "sec"⟩ "a/b c").url
      = "https://s.example/" ++ "bkt" ++ "/" ++ encodeKey "a/b c" := by
  refine ⟨encodeKey_spec.1, encodeKey_spec.2.1 "a/b c", ?_, ?_⟩
  · exact encodeKey_spec.2.2.1 [['a'], ['b', ' ']] (by decide) (by decide)
  · exact ((encodeKey_spec.2.2.2 ⟨"https://s.example/", "bkt", "id", "sec"⟩
      "a/b c" "x" "y").1).1

/-- JavaScript default-on-falsy: `if (!v) v = dflt` for an optional string
(absent and empty strings are falsy). -/
def jsOrElse (o : Option String) (dflt : String) : String :=
  match o with
  | none => dflt
  | some s => if s = "" then dflt else s

/-- One extension-header entry rendered as in the code. -/
def renderHeader (kv : String × String) : String :=
  kv.1 ++ ":" ++ kv.2

/-- JavaScript `parts.join(sep)` on strings. -/
def joinStrings (sep : String) : List String → String
  | [] => ""
  | [s] => s
  | s :: ss => s ++ sep ++ joinStrings sep ss

/-- `Object.entries(amzHeaders).sort(([a], [b]) => a.localeCompare(b))`:
a stable sort of the entries by the comparator applied to the names.  The
locale comparison itself is an external runtime facility, so it is a
parameter. -/
def sortEntries (cmp : String → String → Int) (entries : List (String × String)) :
    List (String × String) :=
  entries.mergeSort (fun a b => decide (cmp a.1 b.1 ≤ 0))

/-- The canonicalized extension-header block built in `sendRequest`:
sorted entries, each rendered `name:value`, joined with newline.  Note the
code applies no case conversion to the names. -/
def canonicalizeAmzHeaders (cmp : String → String → Int)
    (entries : List (String × String)) : String :=
  joinStrings "\n" ((sortEntries cmp entries).map renderHeader)

/-- ASCII lower-casing of one character. -/
def lowerChar (c : Char) : Char :=
  if 65 ≤ c.toNat && c.toNat ≤ 90 then Char.ofNat (c.toNat + 32) else c

/-- ASCII lower-casing of a string. -/
def lowerString (s : String) : String :=
  String.mk (s.data.map lowerChar)

/-- The canonicalization as the specification sentence describes it:
identical except that each header name is lower-cased first.  Introduced
only to compare the described behaviour with the implemented one. -/
def specCanonicalizeAmzHeaders (cmp : String → String → Int)
    (entries : List (String × String)) : String :=
  joinStrings "\n"
    ((sortEntries cmp (entries.map (fun kv => (lowerString kv.1, kv.2)))).map renderHeader)

/-- The `stringToSign` of `signRequest`: the extension-header line is
present exactly when the canonicalized block is truthy (present and
non-empty). -/
def stringToSignOf (method canonicalResource contentMd5 contentType date : String)
    (canonicalizedAmzHeaders : Option String) : String :=
  match canonicalizedAmzHeaders with
  | none =>
    method ++ "\n" ++ contentMd5 ++ "\n" ++ contentType ++ "\n" ++ date ++ "\n" ++
      canonicalResource
  | some h =>
    if h = "" then
      method ++ "\n" ++ contentMd5 ++ "\n" ++ contentType ++ "\n" ++ date ++ "\n" ++
        canonicalResource
    else
      method ++ "\n" ++ contentMd5 ++ "\n" ++ contentType ++ "\n" ++ date ++ "\n" ++
        h ++ "\n" ++ canonicalResource

/-- `signRequest` with the HMAC-SHA1-base64 primitive abstracted: resolves
the date (defaulting to the current HTTP-date `now` when absent or empty),
builds `stringToSign`, and returns the AWS-style authorization token. -/
def signRequest (cfg : GcsConfig) (hmacSha1Base64 : String → String → String)
    (method canonicalResource contentMd5 contentType : String)
    (dateArg : Option String) (now : String)
    (canonicalizedAmzHeaders : Option String) : String :=
  let date := jsOrElse dateArg now
  "AWS " ++ cfg.accessId ++ ":" ++
    hmacSha1Base64 cfg.secret
      (stringToSignOf method canonicalResource contentMd5 contentType date
        canonicalizedAmzHeaders)

theorem renderHeader_data_ne_nil (kv : String × String) : (renderHeader kv).data ≠ [] := by
  intro h
  have : (kv.1 ++ ":" ++ kv.2).data = kv.1.data ++ (":" : String).data ++ kv.2.data := by
    rw [String.data_append, String.data_append]
  rw [renderHeader] at h
  rw [this] at h
  simp at h

theorem joinStrings_data_ne_nil (sep : String) (s : String) (ss : List String)
    (h : s.data ≠ []) : (joinStrings sep (s :: ss)).data ≠ [] := by
  cases ss with
  | nil => exact h
  | cons s2 ss2 =>
    show (s ++ sep ++ joinStrings sep (s2 :: ss2)).data ≠ []
    rw [String.data_append, String.data_append]
    simp only [List.append_assoc, ne_eq, List.append_eq_nil]
    intro hc
    exact h hc.1

theorem sortEntries_ne_nil (cmp : String → String → Int)
    (entries : List (String × String)) (h : entries ≠ []) :
    sortEntries cmp entries ≠ [] := by
  intro h0
  have hlen := (List.mergeSort_perm entries (fun a b => decide (cmp a.1 b.1 ≤ 0))).length_eq
  rw [show List.mergeSort entries (fun a b => decide (cmp a.1 b.1 ≤ 0))
      = sortEntries cmp entries from rfl, h0] at hlen
  exact h (List.length_eq_zero.mp hlen.symm)

theorem canonicalizeAmzHeaders_ne_empty (cmp : String → String → Int)
    (entries : List (String × String)) (h : entries ≠ []) :
    canonicalizeAmzHeaders cmp entries ≠ "" := by
  have hs := sortEntries_ne_nil cmp entries h
  cases hsort : sortEntries cmp entries with
  | nil => exact absurd hsort hs
  | cons kv kvs =>
    intro he
    have : (canonicalizeAmzHeaders cmp entries).data ≠ [] := by
      rw [canonicalizeAmzHeaders, hsort]
      exact joinStrings_data_ne_nil "\n" (renderHeader kv) (kvs.map renderHeader)
        (renderHeader_data_ne_nil kv)
    rw [he] at this
    simp at this

/-- C3: with an explicit request date, the string handed to the HMAC-SHA1
primitive is exactly the five-line form
`METHOD \n contentHash \n contentType \n date \n canonicalResource` when no
extension headers are present (the headers line is omitted entirely, not
left empty), and exactly the six-line form with the canonicalized block as
the fifth line when at least one extension header is present; the produced
token is `AWS <access-id>:<signature>`. -/
theorem signRequest_spec :
    ∀ (cfg : GcsConfig) (hmacSha1Base64 : String → String → String)
      (method resource contentMd5 contentType d now : String)
      (cmp : String → String → Int) (entries : List (String × String)),
      d ≠ "" →
      (signRequest cfg hmacSha1Base64 method resource contentMd5 contentType
          (some d) now none
        = "AWS " ++ cfg.accessId ++ ":" ++
          hmacSha1Base64 cfg.secret
            (method ++ "\n" ++ contentMd5 ++ "\n" ++ contentType ++ "\n" ++ d ++
              "\n" ++ resource)) ∧
      (entries ≠ [] →
        signRequest cfg hmacSha1Base64 method resource contentMd5 contentType
            (some d) now (some (canonicalizeAmzHeaders cmp entries))
          = "AWS " ++ cfg.accessId ++ ":" ++
            hmacSha1Base64 cfg.secret
              (method ++ "\n" ++ contentMd5 ++ "\n" ++ contentType ++ "\n" ++ d ++
                "\n" ++ canonicalizeAmzHeaders cmp entries ++ "\n" ++ resource)) := by
  intro cfg hmac method resource contentMd5 contentType d now cmp entries hd
  constructor
  · show "AWS " ++ cfg.accessId ++ ":" ++
        hmac cfg.secret (stringToSignOf method resource contentMd5 contentType
          (jsOrElse (some d) now) none) = _
    rw [show jsOrElse (some d) now = d from if_neg hd]
    rfl
  · intro hne
    have hblock := canonicalizeAmzHeaders_ne_empty cmp entries hne
    show "AWS " ++ cfg.accessId ++ ":" ++
        hmac cfg.secret (stringToSignOf method resource contentMd5 contentType
          (jsOrElse (some d) now) (some (canonicalizeAmzHeaders cmp entries))) = _
    rw [show jsOrElse (some d) now = d from if_neg hd]
    rw [show stringToSignOf method resource contentMd5 contentType d
        (some (canonicalizeAmzHeaders cmp entries))
      = method ++ "\n" ++ contentMd5 ++ "\n" ++ contentType ++ "\n" ++ d ++ "\n" ++
        canonicalizeAmzHeaders cmp entries ++ "\n" ++ resource from by
      rw [stringToSignOf, if_neg hblock]]

theorem signRequest_spec_witness :
    (signRequest ⟨"https://s.example/", "bkt", "ID", "SECRET"⟩
        (fun k m => k ++ "#" ++ m) "PUT" "/bkt/k" "" "text/plain"
        (some "Thu, 01 Jan 2026 00:00:00 GMT") "NOW" none
      = "AWS " ++ "ID" ++ ":" ++
        (fun k m => k ++ "#" ++ m) "SECRET"
          ("PUT" ++ "\n" ++ "" ++ "\n" ++ "text/plain" ++ "\n" ++
            "Thu, 01 Jan 2026 00:00:00 GMT" ++ "\n" ++ "/bkt/k")) ∧
    (signRequest ⟨"https://s.example/", "bkt", "ID", "SECRET"⟩
        (fun k m => k ++ "#" ++ m) "PUT" "/bkt/k" "" ""
        (some "Thu, 01 Jan 2026 00:00:00 GMT") "NOW"
        (some (canonicalizeAmzHeaders (fun _ _ => 0)
          [("x-amz-copy-source", "/bkt/src")]))
      = "AWS " ++ "ID" ++ ":" ++
        (fun k m => k ++ "#" ++ m) "SECRET"
          ("PUT" ++ "\n" ++ "" ++ "\n" ++ "" ++ "\n" ++
            "Thu, 01 Jan 2026 00:00:00 GMT" ++ "\n" ++
            canonicalizeAmzHeaders (fun _ _ => 0)
              [("x-amz-copy-source", "/bkt/src")] ++ "\n" ++ "/bkt/k")) := by
  constructor
  · exact (signRequest_spec ⟨"https://s.example/", "bkt", "ID", "SECRET"⟩
      (fun k m => k ++ "#" ++ m) "PUT" "/bkt/k" "" "text/plain"
      "Thu, 01 Jan 2026 00:00:00 GMT" "NOW" (fun _ _ => 0) [] (by decide)).1
  · exact (signRequest_spec ⟨"https://s.example/", "bkt", "ID", "SECRET"⟩
      (fun k m => k ++ "#" ++ m) "PUT" "/bkt/k" "" ""
      "Thu, 01 Jan 2026 00:00:00 GMT" "NOW" (fun _ _ => 0)
      [("x-amz-copy-source", "/bkt/src")] (by decide)).2 (by decide)

/-- C4 (counterexample): the implemented canonicalization keeps header
names verbatim, so for the single header `X-Foo: bar` it produces
`X-Foo:bar`, while the claim's lower-casing rule would produce `x-foo:bar`;
the two disagree, refuting the claim as stated. -/
theorem canonicalizeAmzHeaders_lowercase_cex :
    canonicalizeAmzHeaders (fun _ _ => 0) [("X-Foo", "bar")] = "X-Foo:bar" ∧
    specCanonicalizeAmzHeaders (fun _ _ => 0) [("X-Foo", "bar")] = "x-foo:bar" ∧
    canonicalizeAmzHeaders (fun _ _ => 0) [("X-Foo", "bar")]
      ≠ specCanonicalizeAmzHeaders (fun _ _ => 0) [("X-Foo", "bar")] := by
  have h1 : canonicalizeAmzHeaders (fun _ _ => 0) [("X-Foo", "bar")] = "X-Foo:bar" := by
    rw [canonicalizeAmzHeaders, sortEntries, List.mergeSort_singleton]
    rfl
  have h2 : specCanonicalizeAmzHeaders (fun _ _ => 0) [("X-Foo", "bar")] = "x-foo:bar" := by
    rw [specCanonicalizeAmzHeaders]
    rw [show [("X-Foo", "bar")].map (fun kv => (lowerString kv.1, kv.2))
        = [("x-foo", "bar")] from by decide]
    rw [sortEntries, List.mergeSort_singleton]
    rfl
  refine ⟨h1, h2, ?_⟩
  rw [h1, h2]
  decide

/-- C4 (amended): for every non-empty set of extension headers, the
canonicalized block is obtained by stably sorting the entries by the
comparator applied to the header names (for any transitive and total
comparison, as the runtime locale comparison is), rendering each entry as
`name:value` with the name case preserved (no lower-casing is applied),
and joining the lines with newline. -/
theorem canonicalizeAmzHeaders_amended :
    ∀ (cmp : String → String → Int) (entries : List (String × String)),
      entries ≠ [] →
      (∀ a b c, cmp a b ≤ 0 → cmp b c ≤ 0 → cmp a c ≤ 0) →
      (∀ a b, cmp a b ≤ 0 ∨ cmp b a ≤ 0) →
      ∃ sortedEntries,
        sortedEntries.Perm entries ∧
        sortedEntries ≠ [] ∧
        List.Pairwise (fun a b => cmp a.1 b.1 ≤ 0) sortedEntries ∧
        canonicalizeAmzHeaders cmp entries
          = joinStrings "\n" (sortedEntries.map (fun kv => kv.1 ++ ":" ++ kv.2)) := by
  intro cmp entries hne htrans htotal
  refine ⟨sortEntries cmp entries, List.mergeSort_perm entries _,
    sortEntries_ne_nil cmp entries hne, ?_, rfl⟩
  have hp := @List.sorted_mergeSort (String × String)
    (fun a b => decide (cmp a.1 b.1 ≤ 0))
    (fun a b c h1 h2 => by
      simp only [decide_eq_true_eq] at h1 h2 ⊢
      exact htrans _ _ _ h1 h2)
    (fun a b => by
      simp only [Bool.or_eq_true, decide_eq_true_eq]
      exact htotal _ _)
    entries
  simpa using hp

theorem canonicalizeAmzHeaders_amended_witness :
    ∃ sortedEntries,
      sortedEntries.Perm [("x-amz-copy-source", "/bkt/src")] ∧
      sortedEntries ≠ [] ∧
      List.Pairwise (fun _ _ : String × String => (0 : Int) ≤ 0) sortedEntries ∧
      canonicalizeAmzHeaders (fun _ _ => 0) [("x-amz-copy-source", "/bkt/src")]
        = joinStrings "\n" (sortedEntries.map (fun kv => kv.1 ++ ":" ++ kv.2)) :=
  canonicalizeAmzHeaders_amended (fun _ _ => 0) [("x-amz-copy-source", "/bkt/src")]
    (by decide) (fun _ _ _ h _ => h) (fun _ _ => Or.inl (le_refl 0))

/-- A primitive object-store call issued by a composite operation. -/
inductive GcsOp where
  | copyOp (src dst : String)
  | deleteOp (key : String)
deriving DecidableEq, Repr

/-- Outcome oracle for the primitive calls: which copies and deletes the
provider fails. -/
structure OpOracle where
  copyFails : String → String → Bool
  deleteFails : String → Bool

/-- JavaScript `s.slice(n)` for a non-negative start index. -/
def jsSliceFrom (s : String) (n : Nat) : String :=
  String.mk (s.data.drop n)

/-- The destination key computed inside the folder loops:
`destKey + obj.key.slice(sourceKey.length)`. -/
def remapKey (sourceKey destKey key : String) : String :=
  destKey ++ jsSliceFrom key sourceKey.length

/-- The per-object loop of `moveItem` for a folder source: for each listed
object, copy to the remapped key, then delete the original; the first
failing call aborts the loop (a failing call is still an issued call and
appears in the trace). -/
def moveFolderLoop (o : OpOracle) (sourceKey destKey : String) :
    List GoogleCloudObject → List GcsOp × Option String
  | [] => ([], none)
  | obj :: rest =>
    let newKey := remapKey sourceKey destKey obj.key
    if o.copyFails obj.key newKey then
      ([.copyOp obj.key newKey], some "copy failed")
    else if o.deleteFails obj.key then
      ([.copyOp obj.key newKey, .deleteOp obj.key], some "delete failed")
    else
      let r := moveFolderLoop o sourceKey destKey rest
      (.copyOp obj.key newKey :: .deleteOp obj.key :: r.1, r.2)

/-- The best-effort marker step of `moveItem` for a folder: try to copy the
marker and then delete it, swallowing any failure (if the copy fails the
delete is never issued; either way no error escapes). -/
def markerMoveOps (o : OpOracle) (sourceKey destKey : String) : List GcsOp :=
  if o.copyFails sourceKey destKey then [.copyOp sourceKey destKey]
  else [.copyOp sourceKey destKey, .deleteOp sourceKey]

/-- JavaScript `s.endsWith('/')`: the last character is the separator. -/
def endsWithSlash (s : String) : Bool :=
  s.data.getLast? == some slash

/-- `moveItem`: folder branch for a source key ending in `/` (per-object
copy-then-delete over the listed descendants, then the best-effort marker
step), file branch otherwise (one copy then one delete, errors
propagating). -/
def moveItemModel (o : OpOracle) (sourceKey destKey : String)
    (listed : List GoogleCloudObject) : List GcsOp × Option String :=
  if endsWithSlash sourceKey then
    match moveFolderLoop o sourceKey destKey listed with
    | (t, some e) => (t, some e)
    | (t, none) => (t ++ markerMoveOps o sourceKey destKey, none)
  else
    if o.copyFails sourceKey destKey then
      ([.copyOp sourceKey destKey], some "copy failed")
    else if o.deleteFails sourceKey then
      ([.copyOp sourceKey destKey, .deleteOp sourceKey], some "delete failed")
    else
      ([.copyOp sourceKey destKey, .deleteOp sourceKey], none)

/-- The per-object loop of `copyFolder`: copy each listed object to its
remapped key; the first failing copy aborts. -/
def copyFolderLoop (o : OpOracle) (sourceKey destKey : String) :
    List GoogleCloudObject → List GcsOp × Option String
  | [] => ([], none)
  | obj :: rest =>
    let newKey := remapKey sourceKey destKey obj.key
    if o.copyFails obj.key newKey then
      ([.copyOp obj.key newKey], some "copy failed")
    else
      let r := copyFolderLoop o sourceKey destKey rest
      (.copyOp obj.key newKey :: r.1, r.2)

/-- `copyFolder`: the per-object copies, then a best-effort marker copy
whose failure is swallowed. -/
def copyFolderModel (o : OpOracle) (sourceKey destKey : String)
    (listed : List GoogleCloudObject) : List GcsOp × Option String :=
  match copyFolderLoop o sourceKey destKey listed with
  | (t, some e) => (t, some e)
  | (t, none) => (t ++ [.copyOp sourceKey destKey], none)

theorem copyFolderLoop_success (o : OpOracle) (src dst : String)
    (listed : List GoogleCloudObject)
    (h : ∀ obj ∈ listed, o.copyFails obj.key (remapKey src dst obj.key) = false) :
    copyFolderLoop o src dst listed
      = (listed.map (fun obj => GcsOp.copyOp obj.key (remapKey src dst obj.key)), none) := by
  induction listed with
  | nil => rfl
  | cons obj rest ih =>
    have hobj := h obj (by simp)
    have hrest := ih (fun q hq => h q (by simp [hq]))
    simp [copyFolderLoop, hobj, hrest]

theorem jsSliceFrom_append (pfx sfx : String) :
    jsSliceFrom (pfx ++ sfx) pfx.length = sfx := by
  show String.mk ((pfx ++ sfx).data.drop pfx.length) = sfx
  rw [String.data_append]
  rw [show pfx.length = pfx.data.length from rfl]
  rw [List.drop_left]

theorem remapKey_append (src dst sfx : String) :
    remapKey src dst (src ++ sfx) = dst ++ sfx := by
  rw [remapKey, jsSliceFrom_append]

/-- C5: `copyFolder` copies every listed object under the source key to
the key obtained by replacing the source-key portion with the destination
key and keeping the remaining characters unchanged, one copy per object in
listing order, followed by the best-effort marker copy; in particular a
descendant `src ++ sfx` is copied to `dst ++ sfx`. -/
theorem copyFolder_spec :
    ∀ (o : OpOracle) (src dst : String) (listed : List GoogleCloudObject),
      (∀ obj ∈ listed, o.copyFails obj.key (remapKey src dst obj.key) = false) →
      (copyFolderModel o src dst listed
        = (listed.map (fun obj => GcsOp.copyOp obj.key (remapKey src dst obj.key))
            ++ [GcsOp.copyOp src dst], none)) ∧
      (∀ obj sfx, obj ∈ listed → obj.key = src ++ sfx →
        GcsOp.copyOp obj.key (dst ++ sfx) ∈ (copyFolderModel o src dst listed).1) := by
  intro o src dst listed hok
  have hmain : copyFolderModel o src dst listed
      = (listed.map (fun obj => GcsOp.copyOp obj.key (remapKey src dst obj.key))
          ++ [GcsOp.copyOp src dst], none) := by
    rw [copyFolderModel, copyFolderLoop_success o src dst listed hok]
  refine ⟨hmain, ?_⟩
  intro obj sfx hmem hkey
  rw [hmain]
  simp only [List.mem_append, List.mem_map]
  left
  refine ⟨obj, hmem, ?_⟩
  rw [hkey, remapKey_append]

theorem copyFolder_spec_witness :
    GcsOp.copyOp "src/file1.txt" ("dest/" ++ "file1.txt")
      ∈ (copyFolderModel ⟨fun _ _ => false, fun _ => false⟩ "src/" "dest/"
          [⟨"src/file1.txt", 10, ""⟩, ⟨"src/sub/file2.txt", 20, ""⟩]).1 ∧
    GcsOp.copyOp "src/sub/file2.txt" ("dest/" ++ "sub/file2.txt")
      ∈ (copyFolderModel ⟨fun _ _ => false, fun _ => false⟩ "src/" "dest/"
          [⟨"src/file1.txt", 10, ""⟩, ⟨"src/sub/file2.txt", 20, ""⟩]).1 := by
  constructor
  · exact (copyFolder_spec ⟨fun _ _ => false, fun _ => false⟩ "src/" "dest/"
      [⟨"src/file1.txt", 10, ""⟩, ⟨"src/sub/file2.txt", 20, ""⟩]
      (fun obj _ => rfl)).2 ⟨"src/file1.txt", 10, ""⟩ "file1.txt" (by simp) (by decide)
  · exact (copyFolder_spec ⟨fun _ _ => false, fun _ => false⟩ "src/" "dest/"
      [⟨"src/file1.txt", 10, ""⟩, ⟨"src/sub/file2.txt", 20, ""⟩]
      (fun obj _ => rfl)).2 ⟨"src/sub/file2.txt", 20, ""⟩ "sub/file2.txt" (by simp)
      (by decide)

/-- Recognizer for copy calls in a trace. -/
def isCopyOp : GcsOp → Bool
  | .copyOp _ _ => true
  | .deleteOp _ => false

/-- Recognizer for delete calls in a trace. -/
def isDeleteOp : GcsOp → Bool
  | .copyOp _ _ => false
  | .deleteOp _ => true

/-- The copy/delete pair of calls for one descendant of a folder move. -/
def pairOps (src dst : String) (obj : GoogleCloudObject) : List GcsOp :=
  [GcsOp.copyOp obj.key (remapKey src dst obj.key), GcsOp.deleteOp obj.key]

theorem moveFolderLoop_success (o : OpOracle) (src dst : String)
    (listed : List GoogleCloudObject)
    (h : ∀ obj ∈ listed, o.copyFails obj.key (remapKey src dst obj.key) = false ∧
      o.deleteFails obj.key = false) :
    moveFolderLoop o src dst listed = (listed.flatMap (pairOps src dst), none) := by
  induction listed with
  | nil => rfl
  | cons obj rest ih =>
    obtain ⟨hc, hd⟩ := h obj (by simp)
    have hrest := ih (fun q hq => h q (by simp [hq]))
    simp [moveFolderLoop, hc, hd, hrest, pairOps]

theorem moveFolderLoop_copy_fail (o : OpOracle) (src dst : String)
    (done : List GoogleCloudObject) (bad : GoogleCloudObject)
    (rest : List GoogleCloudObject)
    (hdone : ∀ obj ∈ done, o.copyFails obj.key (remapKey src dst obj.key) = false ∧
      o.deleteFails obj.key = false)
    (hbad : o.copyFails bad.key (remapKey src dst bad.key) = true) :
    moveFolderLoop o src dst (done ++ bad :: rest)
      = (done.flatMap (pairOps src dst)
          ++ [GcsOp.copyOp bad.key (remapKey src dst bad.key)], some "copy failed") := by
  induction done with
  | nil => simp [moveFolderLoop, hbad]
  | cons obj rest2 ih =>
    obtain ⟨hc, hd⟩ := hdone obj (by simp)
    have hrest := ih (fun q hq => hdone q (by simp [hq]))
    simp [moveFolderLoop, hc, hd, hrest, pairOps]

theorem countP_pairOps (src dst : String) (listed : List GoogleCloudObject) :
    (listed.flatMap (pairOps src dst)).countP isCopyOp = listed.length ∧
    (listed.flatMap (pairOps src dst)).countP isDeleteOp = listed.length := by
  induction listed with
  | nil => simp
  | cons obj rest ih =>
    simp only [List.flatMap_cons, List.countP_append, ih.1, ih.2, pairOps,
      List.length_cons]
    constructor <;> simp [List.countP_cons, isCopyOp, isDeleteOp] <;> omega

/-- C6: for a source key ending in `/`, `moveItem` with N listed
descendants that all copy and delete successfully issues exactly the per-
descendant copy-then-delete pairs in listing order (N copy calls and N
delete calls), followed by a best-effort marker copy (and, only when that
copy succeeds, a marker delete) whose failure never fails the operation;
when a descendant's copy fails, that descendant's delete is never issued
and the loop stops there with the error. -/
theorem moveItem_folder_spec :
    (∀ (o : OpOracle) (src dst : String) (listed : List GoogleCloudObject),
      endsWithSlash src = true →
      (∀ obj ∈ listed, o.copyFails obj.key (remapKey src dst obj.key) = false ∧
        o.deleteFails obj.key = false) →
      (moveItemModel o src dst listed
        = (listed.flatMap (pairOps src dst) ++ markerMoveOps o src dst, none)) ∧
      ((listed.flatMap (pairOps src dst)).countP isCopyOp = listed.length) ∧
      ((listed.flatMap (pairOps src dst)).countP isDeleteOp = listed.length) ∧
      (markerMoveOps o src dst = [GcsOp.copyOp src dst] ∨
        markerMoveOps o src dst = [GcsOp.copyOp src dst, GcsOp.deleteOp src]) ∧
      (∀ obj sfx, obj ∈ listed → obj.key = src ++ sfx →
        GcsOp.copyOp obj.key (dst ++ sfx) ∈ (moveItemModel o src dst listed).1)) ∧
    (∀ (o : OpOracle) (src dst : String) (done : List GoogleCloudObject)
        (bad : GoogleCloudObject) (rest : List GoogleCloudObject),
      endsWithSlash src = true →
      (∀ obj ∈ done, o.copyFails obj.key (remapKey src dst obj.key) = false ∧
        o.deleteFails obj.key = false) →
      o.copyFails bad.key (remapKey src dst bad.key) = true →
      moveItemModel o src dst (done ++ bad :: rest)
        = (done.flatMap (pairOps src dst)
            ++ [GcsOp.copyOp bad.key (remapKey src dst bad.key)], some "copy failed")) := by
  constructor
  · intro o src dst listed hends hok
    have hmain : moveItemModel o src dst listed
        = (listed.flatMap (pairOps src dst) ++ markerMoveOps o src dst, none) := by
      rw [moveItemModel, if_pos hends, moveFolderLoop_success o src dst listed hok]
    refine ⟨hmain, (countP_pairOps src dst listed).1, (countP_pairOps src dst listed).2,
      ?_, ?_⟩
    · rw [markerMoveOps]
      by_cases hm : o.copyFails src dst = true
      · rw [if_pos hm]; exact Or.inl rfl
      · rw [if_neg hm]; exact Or.inr rfl
    · intro obj sfx hmem hkey
      rw [hmain]
      simp only [List.mem_append, List.mem_flatMap]
      left
      refine ⟨obj, hmem, ?_⟩
      rw [pairOps, hkey, remapKey_append]
      simp
  · intro o src dst done bad rest hends hdone hbad
    rw [moveItemModel, if_pos hends,
      moveFolderLoop_copy_fail o src dst done bad rest hdone hbad]

theorem moveItem_folder_spec_witness :
    moveItemModel ⟨fun _ _ => false, fun _ => false⟩ "src/" "dest/"
        [⟨"src/a.txt", 10, ""⟩, ⟨"src/b.txt", 20, ""⟩]
      = ([⟨"src/a.txt", 10, ""⟩, (⟨"src/b.txt", 20, ""⟩ : GoogleCloudObject)].flatMap
            (pairOps "src/" "dest/")
          ++ markerMoveOps ⟨fun _ _ => false, fun _ => false⟩ "src/" "dest/", none) ∧
    GcsOp.copyOp "src/a.txt" ("dest/" ++ "a.txt")
      ∈ (moveItemModel ⟨fun _ _ => false, fun _ => false⟩ "src/" "dest/"
          [⟨"src/a.txt", 10, ""⟩, ⟨"src/b.txt", 20, ""⟩]).1 ∧
    moveItemModel ⟨fun _ _ => true, fun _ => false⟩ "src/" "dest/"
        [⟨"src/a.txt", 10, ""⟩]
      = ([GcsOp.copyOp "src/a.txt" (remapKey "src/" "dest/" "src/a.txt")],
          some "copy failed") := by
  refine ⟨?_, ?_, ?_⟩
  · exact (moveItem_folder_spec.1 ⟨fun _ _ => false, fun _ => false⟩ "src/" "dest/"
      [⟨"src/a.txt", 10, ""⟩, ⟨"src/b.txt", 20, ""⟩] (by decide)
      (fun obj _ => ⟨rfl, rfl⟩)).1
  · exact (moveItem_folder_spec.1 ⟨fun _ _ => false, fun _ => false⟩ "src/" "dest/"
      [⟨"src/a.txt", 10, ""⟩, ⟨"src/b.txt", 20, ""⟩] (by decide)
      (fun obj _ => ⟨rfl, rfl⟩)).2.2.2.2 ⟨"src/a.txt", 10, ""⟩ "a.txt" (by simp)
      (by decide)
  · exact moveItem_folder_spec.2 ⟨fun _ _ => true, fun _ => false⟩ "src/" "dest/"
      [] ⟨"src/a.txt", 10, ""⟩ [] (by decide) (by simp) rfl

/-- An HTTP response as `sendRequest` observes it: numeric status, status
text, and the best-effort body text (empty when reading the body failed). -/
structure HttpResponse where
  status : Nat
  statusText : String
  bodyText : String
deriving DecidableEq, Repr

/-- `response.ok`: status in the 2xx range. -/
def responseOk (r : HttpResponse) : Bool :=
  decide (200 ≤ r.status) && decide (r.status ≤ 299)

/-- The error message `sendRequest` throws for a failing response. -/
def httpErrorMessage (r : HttpResponse) : String :=
  "HTTP " ++ toString r.status ++ ": " ++ r.statusText ++ "\n" ++ r.bodyText

/-- The response policy of `sendRequest`:
`if (!response.ok && !(method === 'DELETE' && status === 404) &&
!(method === 'HEAD' && status === 404)) throw ...`. -/
def handleResponse (method : String) (r : HttpResponse) : Except String HttpResponse :=
  if !responseOk r && !(method == "DELETE" && r.status == 404)
      && !(method == "HEAD" && r.status == 404) then
    .error (httpErrorMessage r)
  else
    .ok r

theorem httpErrorMessage_data (r : HttpResponse) :
    (httpErrorMessage r).data
      = ("HTTP " : String).data ++ ((toString r.status).data ++ ((": " : String).data ++
          (r.statusText.data ++ (("\n" : String).data ++ r.bodyText.data)))) := by
  simp [httpErrorMessage, String.data_append, List.append_assoc]

/-- C7: `sendRequest` succeeds on every 2xx response and on exactly two
non-2xx cases — a DELETE answered 404 and a HEAD answered 404; every other
non-2xx response produces an error whose message carries the status code,
the status text and the (best-effort) body text. -/
theorem sendRequest_response_policy :
    ∀ (method : String) (r : HttpResponse),
      (handleResponse method r = .ok r ↔
        (responseOk r = true ∨ (method = "DELETE" ∧ r.status = 404) ∨
          (method = "HEAD" ∧ r.status = 404))) ∧
      (responseOk r = false → ¬(method = "DELETE" ∧ r.status = 404) →
        ¬(method = "HEAD" ∧ r.status = 404) →
        handleResponse method r = .error (httpErrorMessage r) ∧
        (toString r.status).data <:+: (httpErrorMessage r).data ∧
        r.statusText.data <:+: (httpErrorMessage r).data ∧
        r.bodyText.data <:+: (httpErrorMessage r).data) := by
  intro method r
  have hcond : (!responseOk r && !(method == "DELETE" && r.status == 404)
      && !(method == "HEAD" && r.status == 404)) = true
    ↔ (¬(responseOk r = true) ∧ ¬(method = "DELETE" ∧ r.status = 404)
        ∧ ¬(method = "HEAD" ∧ r.status = 404)) := by
    simp [and_assoc]
    tauto
  constructor
  · rw [handleResponse]
    by_cases hc : (!responseOk r && !(method == "DELETE" && r.status == 404)
        && !(method == "HEAD" && r.status == 404)) = true
    · rw [if_pos hc]
      rw [hcond] at hc
      obtain ⟨h1, h2, h3⟩ := hc
      exact iff_of_false (by simp) (by tauto)
    · rw [if_neg hc]
      rw [hcond] at hc
      exact iff_of_true rfl (by tauto)
  · intro h1 h2 h3
    have hc : (!responseOk r && !(method == "DELETE" && r.status == 404)
        && !(method == "HEAD" && r.status == 404)) = true :=
      hcond.mpr ⟨by simp [h1], h2, h3⟩
    refine ⟨by rw [handleResponse, if_pos hc], ?_, ?_, ?_⟩
    · refine ⟨("HTTP " : String).data,
        (": " : String).data ++ (r.statusText.data ++ (("\n" : String).data ++
          r.bodyText.data)), ?_⟩
      rw [httpErrorMessage_data]
      simp [List.append_assoc]
    · refine ⟨("HTTP " : String).data ++ ((toString r.status).data ++
        (": " : String).data), ("\n" : String).data ++ r.bodyText.data, ?_⟩
      rw [httpErrorMessage_data]
      simp [List.append_assoc]
    · refine ⟨("HTTP " : String).data ++ ((toString r.status).data ++
        ((": " : String).data ++ (r.statusText.data ++ ("\n" : String).data))), [], ?_⟩
      rw [httpErrorMessage_data]
      simp [List.append_assoc]

theorem sendRequest_response_policy_witness :
    handleResponse "GET" ⟨500, "Internal Server Error", "boom"⟩
      = .error (httpErrorMessage ⟨500, "Internal Server Error", "boom"⟩) ∧
    ("Internal Server Error" : String).data
      <:+: (httpErrorMessage ⟨500, "Internal Server Error", "boom"⟩).data ∧
    handleResponse "DELETE" ⟨404, "Not Found", ""⟩ = .ok ⟨404, "Not Found", ""⟩ ∧
    handleResponse "HEAD" ⟨404, "Not Found", ""⟩ = .ok ⟨404, "Not Found", ""⟩ := by
  refine ⟨?_, ?_, ?_, ?_⟩
  · exact ((sendRequest_response_policy "GET" ⟨500, "Internal Server Error", "boom"⟩).2
      (by decide) (by decide) (by decide)).1
  · exact ((sendRequest_response_policy "GET" ⟨500, "Internal Server Error", "boom"⟩).2
      (by decide) (by decide) (by decide)).2.2.1
  · exact (sendRequest_response_policy "DELETE" ⟨404, "Not Found", ""⟩).1.mpr
      (Or.inr (Or.inl ⟨rfl, rfl⟩))
  · exact (sendRequest_response_policy "HEAD" ⟨404, "Not Found", ""⟩).1.mpr
      (Or.inr (Or.inr ⟨rfl, rfl⟩))

/-- The outcome of the underlying HTTP fetch inside `fileExists`: either a
response or a thrown failure (network error, timeout abort). -/
inductive FetchOutcome where
  | success (r : HttpResponse)
  | failure (msg : String)
deriving DecidableEq, Repr

/-- `sendRequest` as observed by its caller: a thrown fetch failure
propagates, otherwise the response policy of C7 applies. -/
def sendRequestOutcome (method : String) (out : FetchOutcome) :
    Except String HttpResponse :=
  match out with
  | .failure m => .error m
  | .success r => handleResponse method r

/-- `fileExists`: issue the HEAD request, return `status === 200`,
returning `false` on any thrown error. -/
def fileExists (out : FetchOutcome) : Bool :=
  match sendRequestOutcome "HEAD" out with
  | .error _ => false
  | .ok r => r.status == 200

/-- C8: `fileExists` returns `true` exactly when the underlying HEAD fetch
yields a response with explicit status 200; every other outcome — any
other status (404 included) or a thrown error — yields `false`, never an
exception. -/
theorem fileExists_spec :
    ∀ out : FetchOutcome,
      fileExists out = true ↔ ∃ r, out = .success r ∧ r.status = 200 := by
  intro out
  cases out with
  | failure m =>
    simp [fileExists, sendRequestOutcome]
  | success r =>
    cases hh : handleResponse "HEAD" r with
    | error e =>
      have hfe : fileExists (.success r) = false := by
        simp [fileExists, sendRequestOutcome, hh]
      rw [hfe]
      constructor
      · intro h; cases h
      · rintro ⟨r2, he, h200⟩
        injection he with he2
        subst he2
        have hok : responseOk r = true := by simp [responseOk, h200]
        rw [handleResponse, if_neg (by simp [hok])] at hh
        cases hh
    | ok r2 =>
      have hr2 : r2 = r := by
        rw [handleResponse] at hh
        split at hh
        · cases hh
        · injection hh with h; exact h.symm
      subst hr2
      have hfe : fileExists (.success r2) = (r2.status == 200) := by
        simp [fileExists, sendRequestOutcome, hh]
      rw [hfe]
      simp only [beq_iff_eq]
      constructor
      · intro h200; exact ⟨r2, rfl, h200⟩
      · rintro ⟨r3, he, h200⟩
        injection he with he3
        subst he3
        exact h200

theorem fileExists_spec_witness :
    fileExists (FetchOutcome.success ⟨200, "OK", ""⟩) = true ∧
    fileExists (FetchOutcome.success ⟨404, "Not Found", ""⟩) = false ∧
    fileExists (FetchOutcome.failure "network down") = false := by
  refine ⟨?_, ?_, ?_⟩
  · exact (fileExists_spec (FetchOutcome.success ⟨200, "OK", ""⟩)).mpr
      ⟨⟨200, "OK", ""⟩, rfl, rfl⟩
  · cases hfe : fileExists (FetchOutcome.success ⟨404, "Not Found", ""⟩)
    · rfl
    · obtain ⟨r, he, h200⟩ := (fileExists_spec (FetchOutcome.success ⟨404, "Not Found", ""⟩)).mp hfe
      injection he with he2
      rw [← he2] at h200
      cases h200
  · cases hfe : fileExists (FetchOutcome.failure "network down")
    · rfl
    · obtain ⟨r, he, _⟩ := (fileExists_spec (FetchOutcome.failure "network down")).mp hfe
      cases he
